import Mathlib

/-!
Verification of the `hail_search` variant query engine
(`hail_search/queries/mito.py`, `hail_search/queries/ont_snv_indel.py`).

The Python code builds lazy Hail expressions over tables.  We embed the
relevant expression semantics shallowly: Hail's missing values (`NA`) become
`Option`, Hail arrays become `List` (with possibly-missing elements as
`Option` elements), Hail sets become `Finset`, and the per-row expression
logic of each source function becomes a pure Lean function on an explicit
row value.
-/

/-! ## Hail expression-language kernel

Semantics of the Hail primitives used by the embedded functions.  Hail
booleans are three valued: `NA` (here `none`) propagates except where a
definite `true`/`false` already decides the result. -/

/-- Hail `|` on possibly-missing booleans: `true` wins over `NA`. -/
def hailOr : Option Bool → Option Bool → Option Bool
  | some true, _ => some true
  | _, some true => some true
  | some false, some false => some false
  | _, _ => none

/-- Hail `&` on possibly-missing booleans: `false` wins over `NA`. -/
def hailAnd : Option Bool → Option Bool → Option Bool
  | some false, _ => some false
  | _, some false => some false
  | some true, some true => some true
  | _, _ => none

/-- Hail `hl.if_else`: a missing condition yields a missing result. -/
def hailIfElse : Option Bool → Option α → Option α → Option α
  | some true, a, _ => a
  | some false, _, b => b
  | none, _, _ => none

/-- Hail `hl.or_missing cond v`: `v` when `cond` is definitely true,
missing otherwise (also when `cond` itself is missing). -/
def orMissing : Option Bool → Option α → Option α
  | some true, v => v
  | _, _ => none

/-- Indexing a possibly-missing Hail array whose elements may be missing:
missing array yields missing. -/
def hailGet (arr : Option (List (Option α))) (i : Nat) : Option α :=
  match arr with
  | none => none
  | some l => (l.get? i).join

/-! ## Data model: entries, rows, family index map

`family_entries` rows are arrays (one slot per family, positionally
aligned with the sorted family sample data) of possibly-missing arrays of
sample genotype records. -/

/-- One sample genotype record of a family entry (only the fields the
merge logic reads). -/
structure Sample where
  familyGuid : String
  sampleId : String
  deriving DecidableEq, Repr

/-- One family's entry at one variant: the ordered sample records. -/
abbrev Entries := List Sample

/-- A possibly-missing per-family entries array, as stored in the
`family_entries` / `*_passes_quality` / `*_passes_inheritance` fields. -/
abbrev FamilyEntriesArray := Option (List (Option Entries))

/-- The outer-joined WES+WGS row as seen by
`MitoHailTableQuery._apply_filters`: the renamed per-protocol fields plus
the quality / inheritance annotations added in
`_filter_entries_ht_both_sample_types`. -/
structure MergedRow where
  wes_family_entries : FamilyEntriesArray
  wgs_family_entries : FamilyEntriesArray
  wes_filters : Option (Finset String)
  wgs_filters : Option (Finset String)
  wes_passes_quality : FamilyEntriesArray
  wgs_passes_quality : FamilyEntriesArray
  wes_passes_inheritance : FamilyEntriesArray
  wgs_passes_inheritance : FamilyEntriesArray

/-- Result row of `_apply_filters` after the final `transmute`. -/
structure FilteredRow where
  family_entries : List (Option Entries)
  filters : Finset String

/-- `x[1][0]['familyGuid']`: family guid of a possibly-missing entry,
missing when the entry (or its first sample) is missing. -/
def entryFamilyGuid (e : Option Entries) : Option String :=
  e.bind fun samples => samples.head?.map Sample.familyGuid

/-- Index assignment of `_build_family_index_map` for one sample type:
iterate `enumerate(sorted_family_sample_data)` and record
`samples[0]['familyGuid'] -> family_idx` (a later occurrence overwrites an
earlier one, as Python dict assignment does). -/
def buildIdxMapFrom : Nat → List (List Sample) → String → Option Nat
  | _, [], _ => none
  | i, samples :: rest, g =>
    match buildIdxMapFrom (i + 1) rest g with
    | some j => some j
    | none =>
      match samples.head? with
      | some s => if s.familyGuid = g then some i else none
      | none => none

/-- Family guid to positional index for one protocol's sorted family
sample data. -/
def buildIdxMap (fams : List (List Sample)) : String → Option Nat :=
  buildIdxMapFrom 0 fams

/-- `_build_family_index_map`: family guid -> sample type -> positional
index, one branch per protocol, a family absent from a protocol's table is
simply absent from that branch. -/
structure FamilyIndexMap where
  wes : String → Option Nat
  wgs : String → Option Nat

/-- Build the `FamilyIndexMap` from the two sorted family sample data
lists, exactly as `_build_family_index_map` does. -/
def buildFamilyIndexMap (sorted_wes_family_sample_data sorted_wgs_family_sample_data : List (List Sample)) :
    FamilyIndexMap :=
  ⟨buildIdxMap sorted_wes_family_sample_data, buildIdxMap sorted_wgs_family_sample_data⟩

/-! ## `_apply_filters`: cross-protocol admission -/

/-- The cross-protocol check of `_apply_filters`:
`hl.if_else(family_idx_map.get(guid, hl.empty_dict(...)).contains(OTHER),
hl.is_defined(other_passes[family_idx_map[guid][OTHER]]), False)`.
A missing guid propagates missingness; a family with no index in the other
protocol's branch yields a definite `false`. -/
def crossPasses (otherLookup : String → Option Nat) (otherPasses : FamilyEntriesArray)
    (g : Option String) : Option Bool :=
  hailIfElse (g.map fun s => (otherLookup s).isSome)
    ((g.bind otherLookup).map fun j => (hailGet otherPasses j).isSome)
    (some false)

/-- Admission condition of `_apply_filters` for one family slot of one
protocol: (own quality defined OR other protocol quality defined) AND
(own inheritance defined OR other protocol inheritance defined). -/
def admitEntry (ownQ ownI otherQ otherI : FamilyEntriesArray)
    (otherLookup : String → Option Nat) (i : Nat) (e : Option Entries) : Option Bool :=
  hailAnd
    (hailOr (some (hailGet ownQ i).isSome) (crossPasses otherLookup otherQ (entryFamilyGuid e)))
    (hailOr (some (hailGet ownI i).isSome) (crossPasses otherLookup otherI (entryFamilyGuid e)))

/-- One protocol side of the `_apply_filters` annotate step:
`hl.enumerate(family_entries).map(lambda x: hl.or_missing(<admission>, x[1]))`. -/
def applyFiltersSide (fe ownQ ownI otherQ otherI : FamilyEntriesArray)
    (otherLookup : String → Option Nat) : FamilyEntriesArray :=
  fe.map fun l => l.enum.map fun x =>
    orMissing (admitEntry ownQ ownI otherQ otherI otherLookup x.1 x.2) x.2

/-- `MitoHailTableQuery._apply_filters`: annotate both protocol sides with
the admission rule, then transmute to
`family_entries = coalesce(wes, []) ++ coalesce(wgs, [])` and
`filters = coalesce(wes_filters, {}) union coalesce(wgs_filters, {})`. -/
def applyFilters (row : MergedRow) (m : FamilyIndexMap) : FilteredRow :=
  let wes := applyFiltersSide row.wes_family_entries row.wes_passes_quality
    row.wes_passes_inheritance row.wgs_passes_quality row.wgs_passes_inheritance m.wgs
  let wgs := applyFiltersSide row.wgs_family_entries row.wgs_passes_quality
    row.wgs_passes_inheritance row.wes_passes_quality row.wes_passes_inheritance m.wes
  { family_entries := wes.getD [] ++ wgs.getD []
    filters := row.wes_filters.getD ∅ ∪ row.wgs_filters.getD ∅ }

/-! ## The outer join of the two protocol tables -/

/-- One protocol table's row content before the join (after the rename of
`family_entries` / `filters`): an entries array and the row filters. -/
structure SideRow where
  family_entries : List (Option Entries)
  filters : Finset String

/-- `wes_ht.join(wgs_ht, how='outer')`, per variant key: a key present in
either table appears in the joined table, the missing side's fields are
missing; the quality / inheritance annotations are added later, so they
start out missing-shaped from the missing side as well.  The two extra
arguments annotate the joined row with the passes fields computed later
(they are `none` whenever the corresponding side is absent, which is how
an annotation over a missing array evaluates). -/
def outerJoinRow (wesRow wgsRow : Option SideRow)
    (wesQ wesI wgsQ wgsI : FamilyEntriesArray) : Option MergedRow :=
  match wesRow, wgsRow with
  | none, none => none
  | w, g => some
    { wes_family_entries := w.map SideRow.family_entries
      wgs_family_entries := g.map SideRow.family_entries
      wes_filters := w.map SideRow.filters
      wgs_filters := g.map SideRow.filters
      wes_passes_quality := w.bind fun _ => wesQ
      wes_passes_inheritance := w.bind fun _ => wesI
      wgs_passes_quality := g.bind fun _ => wgsQ
      wgs_passes_inheritance := g.bind fun _ => wgsI }

/-! ## Pathogenicity prefilter cache (`_get_loaded_filter_ht`,
`_get_clinvar_prefilter`) and the quality override (C4, C6) -/

/-- A variant key `(locus, alleles)`. -/
structure VariantKey where
  contig : String
  position : Nat
  alleles : List String
  deriving DecidableEq, Repr

/-- A row of the `clinvar_path_variants.ht` reference table (only the
fields the prefilter predicates read). -/
structure ClinvarRow where
  is_pathogenic : Bool
  is_likely_pathogenic : Bool
  deriving DecidableEq, Repr

/-- A keyed reference table. -/
abbrev RefTable := List (VariantKey × ClinvarRow)

/-- The value returned by `get_filters(**kwargs)` inside
`_get_loaded_filter_ht`: `False`, `True`, or a row predicate. -/
inductive HtFilter where
  | ffalse
  | ftrue
  | fpred (p : ClinvarRow → Bool)

/-- A value cached in `self._filter_hts`: the literal `False` (meaning
"do not consult this prefilter") or a loaded (possibly filtered) table. -/
inductive CachedFilter where
  | noFilter
  | table (t : RefTable)

/-- The per-instance `self._filter_hts` cache. -/
abbrev FilterCache := List (String × CachedFilter)

/-- Lookup in the `_filter_hts` dict (`self._filter_hts.get(key)`). -/
def cacheLookup (cache : FilterCache) (key : String) : Option CachedFilter :=
  (cache.find? fun kv => kv.1 = key).map fun kv => kv.2

/-- `MitoHailTableQuery._get_loaded_filter_ht`: on a cache miss evaluate
`get_filters`; cache `False` when it returns `False`, otherwise read the
reference table, filtering it unless the filter is the `True` sentinel.
Returns the cached value, the updated cache, whether `get_filters` was
evaluated, and whether the reference table was read. -/
def getLoadedFilterHt (cache : FilterCache) (key : String) (tableOnDisk : RefTable)
    (getFilters : HtFilter) : CachedFilter × FilterCache × Bool × Bool :=
  match cacheLookup cache key with
  | some v => (v, cache, false, false)
  | none =>
    match getFilters with
    | HtFilter.ffalse => (CachedFilter.noFilter, (key, CachedFilter.noFilter) :: cache, true, false)
    | HtFilter.ftrue => (CachedFilter.table tableOnDisk, (key, CachedFilter.table tableOnDisk) :: cache, true, true)
    | HtFilter.fpred p =>
      let ht := tableOnDisk.filter fun kv => p kv.2
      (CachedFilter.table ht, (key, CachedFilter.table ht) :: cache, true, true)

/-- Modelled from the spec: the ClinVar "pathogenic" filter label of
`hail_search/constants.py` (`CLINVAR_PATH_FILTER`), which is not under
`src/`; only its identity relative to the other label matters. -/
def CLINVAR_PATH_FILTER : String := "pathogenic"

/-- Modelled from the spec: the ClinVar "likely pathogenic" filter label
of `hail_search/constants.py` (`CLINVAR_LIKELY_PATH_FILTER`). -/
def CLINVAR_LIKELY_PATH_FILTER : String := "likely_pathogenic"

/-- `MitoHailTableQuery._get_clinvar_prefilter`: no relevant path filter
terms gives `False`; only pathogenic terms give the `is_pathogenic`
predicate; only likely-pathogenic terms give the `is_likely_pathogenic`
predicate; both give the `True` sentinel. -/
def getClinvarPrefilter (clinvar_path_filters : List String) : HtFilter :=
  if clinvar_path_filters.isEmpty then HtFilter.ffalse
  else if ¬ clinvar_path_filters.contains CLINVAR_LIKELY_PATH_FILTER then
    HtFilter.fpred ClinvarRow.is_pathogenic
  else if ¬ clinvar_path_filters.contains CLINVAR_PATH_FILTER then
    HtFilter.fpred ClinvarRow.is_likely_pathogenic
  else HtFilter.ftrue

/-- `hl.is_defined(clinvar_path_ht[ht.key])`: key membership in a keyed
reference table. -/
def tableContainsKey (t : RefTable) (k : VariantKey) : Bool :=
  t.any fun kv => kv.1 = k

/-- `MitoHailTableQuery._get_family_passes_quality_filter`: the numeric
per-family quality predicate built by the base class is abstract here
(`passes_quality`); when it is `None` the ClinVar prefilter is never
loaded and `None` is returned; when the loaded prefilter is falsy the
numeric predicate is returned unchanged; otherwise the returned predicate
is `hl.is_defined(clinvar_path_ht[ht.key]) | passes_quality(entries)`. -/
def getFamilyPassesQualityFilter (passes_quality : Option (Entries → Option Bool))
    (loadClinvarPrefilter : Unit → CachedFilter) (key : VariantKey) :
    Option (Entries → Option Bool) :=
  match passes_quality with
  | none => none
  | some pq =>
    match loadClinvarPrefilter () with
    | CachedFilter.noFilter => some pq
    | CachedFilter.table t =>
      some fun entries => hailOr (some (tableContainsKey t key)) (pq entries)

/-! ## `_has_path_expr`: pathogenicity range construction (C5) -/

/-- One element of a `PATHOGENICITY_FILTERS` range config list:
`(path_filter, start, end)`, where a missing `end` stands for the end of
the enum. -/
structure RangeConfig where
  path_filter : String
  start : String
  stop : Option String
  deriving DecidableEq, Repr

/-- The high endpoint a requested config contributes:
`len(enum_lookup) if end is None else enum_lookup[end]`. -/
def rangeHi (enum_lookup : String → Nat) (lookupLen : Nat) (c : RangeConfig) : Nat :=
  match c.stop with
  | none => lookupLen
  | some e => enum_lookup e

/-- The range-building loop of `_has_path_expr`.  The Python list with a
trailing `[None, None]` cell is represented by `current = none`; a
completed trailing cell by `current = some (lo, hi)`.  A requested config
extends (or opens) the current range; a non-requested config closes a
complete current range; the final filter drops an unopened cell. -/
def buildRangesGo (terms : String → Bool) (enum_lookup : String → Nat) (lookupLen : Nat) :
    List RangeConfig → Option (Nat × Nat) → List (Nat × Nat)
  | [], current =>
    match current with
    | some r => [r]
    | none => []
  | c :: rest, current =>
    if terms c.path_filter then
      let hi := rangeHi enum_lookup lookupLen c
      let lo :=
        match current with
        | some lh => lh.1
        | none => enum_lookup c.start
      buildRangesGo terms enum_lookup lookupLen rest (some (lo, hi))
    else
      match current with
      | some r => r :: buildRangesGo terms enum_lookup lookupLen rest none
      | none => buildRangesGo terms enum_lookup lookupLen rest none

/-- The `[low, high]` integer-id ranges `_has_path_expr` builds from the
ordered `range_configs` and the requested `terms`. -/
def buildRanges (range_configs : List RangeConfig) (terms : String → Bool)
    (enum_lookup : String → Nat) (lookupLen : Nat) : List (Nat × Nat) :=
  buildRangesGo terms enum_lookup lookupLen range_configs none

/-- The membership predicate `_has_path_expr` returns:
`hl.any(lambda r: (value >= r[0]) & (value <= r[1]), ranges)` applied to
the variant's pathogenicity enum id. -/
def hasPathExpr (range_configs : List RangeConfig) (terms : String → Bool)
    (enum_lookup : String → Nat) (lookupLen : Nat) (value : Nat) : Bool :=
  (buildRanges range_configs terms enum_lookup lookupLen).any fun r =>
    decide (r.1 ≤ value) && decide (value ≤ r.2)

/-! ## Interval prefiltering (`_parse_intervals`, `_prefilter_entries_table`) -/

/-- `MitoHailTableQuery._parse_intervals`: the `_load_table_kwargs`
interval restriction is attached exactly when the parsed list is truthy
(nonempty), intervals are not excluded, and
`len(parsed_intervals) < MAX_LOAD_INTERVALS`.  `some` models the attached
`{'_intervals': parsed_intervals, '_filter_intervals': True}` kwargs,
`none` an unrestricted load.  `MAX_LOAD_INTERVALS` (defined in
`hail_search/constants.py`, not under `src/`) is an abstract positive
parameter. -/
def parseIntervalsLoadKwargs {I : Type} (parsed_intervals : List I)
    (exclude_intervals : Bool) (max_load_intervals : Nat) : Option (List I) :=
  if ¬ parsed_intervals.isEmpty ∧ exclude_intervals = false ∧
      parsed_intervals.length < max_load_intervals
  then some parsed_intervals else none

/-- `hl.filter_intervals(ht, intervals, keep)`: keep (or drop) the rows
lying in at least one of the intervals; interval membership is abstract. -/
def filterIntervals {I R : Type} (rows : List R) (intervals : List I)
    (member : I → R → Bool) (keep : Bool) : List R :=
  rows.filter fun r => (intervals.any fun iv => member iv r) == keep

/-- `MitoHailTableQuery._prefilter_entries_table` (the row filtering part;
the partition coalescing does not change row content): excluded intervals
are applied as a `keep=False` post-load filter; otherwise a post-load
`keep=True` filter is applied exactly when
`num_intervals >= MAX_LOAD_INTERVALS`. -/
def prefilterEntriesTable {I R : Type} (rows : List R) (parsed_intervals : List I)
    (exclude_intervals : Bool) (max_load_intervals : Nat) (member : I → R → Bool) : List R :=
  if exclude_intervals ∧ ¬ parsed_intervals.isEmpty then
    filterIntervals rows parsed_intervals member false
  else if max_load_intervals ≤ parsed_intervals.length then
    filterIntervals rows parsed_intervals member true
  else rows

/-! ## Single-variant project lookup (`_add_project_lookup_data`) and the
ONT rejection (C8) -/

/-- One per-family genotype stat of the lookup table's `project_stats`. -/
structure ProjectStat where
  heteroplasmic_samples : Int
  homoplasmic_samples : Int
  deriving DecidableEq, Repr

/-- `MitoHailTableQuery._stat_has_non_ref`. -/
def statHasNonRef (s : ProjectStat) : Bool :=
  decide (0 < s.heteroplasmic_samples) || decide (0 < s.homoplasmic_samples)

/-- The single `lookup.ht` row for the looked-up variant: parallel arrays
of per-project-sample-type stats, keys, and family guids, as read by the
aggregation in `_add_project_lookup_data`. -/
structure LookupRow where
  project_stats : List (List (Option ProjectStat))
  project_sample_types : List (String × String)
  project_families : List ((String × String) × List String)
  deriving Repr

/-- Family indices with a non-ref stat:
`hl.enumerate(ps).starmap(lambda j, s: hl.or_missing(stat_has_non_ref(s), j)).filter(hl.is_defined)`. -/
def nonRefFamilyIndices (ps : List (Option ProjectStat)) : List Nat :=
  ps.enum.filterMap fun x => x.2.bind fun s => if statHasNonRef s then some x.1 else none

/-- Group the retained `(project_key, families)` pairs by project guid
(`group_by(lambda x: x[0][0])`, then values keyed by sample type). -/
def groupProjectsByGuid (l : List ((String × String) × List String)) :
    List (String × List (String × List String)) :=
  ((l.map fun x => x.1.1).eraseDups).map fun g =>
    (g, l.filterMap fun x => if x.1.1 = g then some (x.1.2, x.2) else none)

/-- The `variant_projects` aggregation of
`MitoHailTableQuery._add_project_lookup_data`: per project-sample-type
key, the families whose stats are non-ref; keys with no such family are
dropped; the survivors are grouped by project guid. -/
def variantProjects (r : LookupRow) : List (String × List (String × List String)) :=
  let pairs := r.project_stats.enum.map fun x =>
    (r.project_sample_types.getD x.1 ("", ""), nonRefFamilyIndices x.2)
  let present := pairs.filter fun x => ¬ x.2.isEmpty
  let withFams := present.map fun x =>
    (x.1, x.2.map fun j =>
      (((r.project_families.find? fun pf => pf.1 = x.1).map fun pf => pf.2).getD []).getD j "")
  groupProjectsByGuid withFams

/-- The HTTP error conditions raised by the lookup paths. -/
inductive HttpFailure where
  | notFound
  | badRequest (reason : String)
  deriving DecidableEq, Repr

/-- `MitoHailTableQuery._add_project_lookup_data`: a missing `lookup.ht`
raises `HTTPNotFound`; a variant whose lookup row yields no project (only
ref calls) raises `HTTPNotFound`; otherwise the variant projects are
passed on. -/
def mitoAddProjectLookupData (lookup_ht : Option LookupRow) :
    Except HttpFailure (List (String × List (String × List String))) :=
  match lookup_ht with
  | none => Except.error HttpFailure.notFound
  | some row =>
    let vp := variantProjects row
    if vp.isEmpty then Except.error HttpFailure.notFound
    else Except.ok vp

/-- `OntSnvIndelHailTableQuery._add_project_lookup_data`: unconditionally
raises `HTTPBadRequest`. -/
def ontAddProjectLookupData :
    Except HttpFailure (List (String × List (String × List String))) :=
  Except.error (HttpFailure.badRequest "Variant lookup is not supported for ONT data")

/-! ## Selected transcript (`_selected_main_transcript_expr`) (C9) -/

/-- A transcript consequence record (the fields the selection reads). -/
structure Transcript where
  transcript_id : String
  gene_id : String
  deriving DecidableEq, Repr

/-- The row fields `_selected_main_transcript_expr` reads; an outer `none`
models a field absent from the table schema (the Python-level
`getattr(ht, ..., None)` / `hasattr` checks).  Elements of the allowed
transcript arrays may be missing at row level. -/
structure TranscriptRow where
  sorted_transcript_consequences : List Transcript
  comp_het_gene_ids : Option (List String)
  gene_transcripts : Option (List Transcript)
  allowed_transcripts : Option (List (Option Transcript))
  allowed_secondary_transcripts : Option (List (Option Transcript))
  deriving Repr

/-- `MitoHailTableQuery._selected_main_transcript_expr`, transcribed
branch by branch: gene candidates come from the compound-het shared genes
when present, else from `gene_transcripts`; with a compound-het context
and a secondary allowed list, the allowed list falls back to the
secondary one when the primary has no defined entries
(`hl.if_else(allowed_transcripts.any(hl.is_defined), ...)`); the match is
`gene_transcripts.find(tid in allowed ids)` with `or_else` fallback to
`gene_transcripts.first()`, or the respective single-source firsts; the
final `hl.or_else` falls back to the first sorted transcript. -/
def selectedMainTranscriptExpr (ht : TranscriptRow) : Option Transcript :=
  let gene_transcripts : Option (List Transcript) :=
    match ht.comp_het_gene_ids with
    | some gids => some (ht.sorted_transcript_consequences.filter fun t => gids.contains t.gene_id)
    | none => ht.gene_transcripts
  let allowed_transcripts : Option (List (Option Transcript)) :=
    match ht.comp_het_gene_ids, ht.allowed_secondary_transcripts with
    | some _, some secondary =>
      match ht.allowed_transcripts with
      | some primary => some (if primary.any Option.isSome then primary else secondary)
      | none => some secondary
    | _, _ => ht.allowed_transcripts
  let main_transcript := ht.sorted_transcript_consequences.head?
  let matched_transcript : Option Transcript :=
    match gene_transcripts, allowed_transcripts with
    | some gts, some ats =>
      let allowed_transcript_ids := ats.filterMap fun t => t.map Transcript.transcript_id
      match gts.find? fun t => allowed_transcript_ids.contains t.transcript_id with
      | some t => some t
      | none => gts.head?
    | some gts, none => gts.head?
    | none, some ats => ats.head?.join
    | none, none => main_transcript
  match matched_transcript with
  | some t => some t
  | none => main_transcript

/-! ## Variant id filtering (`_filter_variant_ids`) (C10) -/

/-- A genomic locus. -/
structure Locus where
  contig : String
  position : Nat
  deriving DecidableEq, Repr

/-- A variant table row key. -/
structure VariantRow where
  locus : Locus
  alleles : List String
  deriving DecidableEq, Repr

/-- A requested variant id `(chrom, pos, ref, alt)`. -/
structure VariantId where
  chrom : String
  pos : Nat
  ref : String
  alt : String
  deriving DecidableEq, Repr

/-- `MitoHailTableQuery._filter_variant_ids`: with exactly one requested
id the row predicate is `ht.alleles == [ref, alt]`; otherwise it is
`hl.any` over per-id conjunctions of a locus match and an alleles
match. -/
def filterVariantIds (rows : List VariantRow) (variant_ids : List VariantId) : List VariantRow :=
  match variant_ids with
  | [vid] => rows.filter fun r => decide (r.alleles = [vid.ref, vid.alt])
  | _ => rows.filter fun r => variant_ids.any fun vid =>
      decide (r.locus = ⟨vid.chrom, vid.pos⟩) && decide (r.alleles = [vid.ref, vid.alt])

/-! ## Quality / inheritance annotation of the joined row
(`_annotate_passes_quality_filter` and the `any_valid_entry` inheritance
annotation of `_filter_entries_ht_both_sample_types`) -/

/-- One side of `_annotate_passes_quality_filter`: keep the entries array
untouched when there is no quality predicate, otherwise
`family_entries.map(lambda entries: hl.or_missing(passes(entries), entries))`. -/
def annotatePassesQualitySide (fe : FamilyEntriesArray)
    (passes_quality_filter : Option (Entries → Option Bool)) : FamilyEntriesArray :=
  match passes_quality_filter with
  | none => fe
  | some p => fe.map fun l => l.map fun e => orMissing (e.bind p) e

/-- The `any_valid_entry` inheritance annotation of
`_filter_entries_ht_both_sample_types`:
`family_entries.map(lambda entries: hl.or_missing(entries.any(any_valid_entry), entries))`. -/
def annotatePassesInheritanceAny (fe : FamilyEntriesArray)
    (any_valid_entry : Sample → Bool) : FamilyEntriesArray :=
  fe.map fun l => l.map fun e =>
    orMissing (e.map fun es => es.any any_valid_entry) e

/-! ## Spec-side formalizations used by the corrected claims -/

/-- The admission rule exactly as claim C1 words it: a protocol's entries
are kept iff that protocol independently passed both quality and
inheritance, or, when that protocol lacks a verdict for the family but the
other protocol has one, the other protocol passed both. -/
def c1ClaimedAdmit (ownPassesQuality ownPassesInheritance ownHasVerdict otherHasVerdict
    otherPassesQuality otherPassesInheritance : Bool) : Bool :=
  (ownPassesQuality && ownPassesInheritance) ||
    (!ownHasVerdict && otherHasVerdict && otherPassesQuality && otherPassesInheritance)

/-- The admission condition the code actually evaluates, as a plain
boolean over one criterion: the own protocol's verdict is defined, or the
family has an index in the other protocol's branch of the map and the
other protocol's verdict at that index is defined. -/
def eitherProtocolPasses (own other : FamilyEntriesArray)
    (otherLookup : String → Option Nat) (i : Nat) (g : String) : Bool :=
  (hailGet own i).isSome ||
    (match otherLookup g with
     | some j => (hailGet other j).isSome
     | none => false)

/-- Transcript selection exactly as claim C9 words it: same candidate and
allowed-list resolution as the code, but whenever the preferred
allowed-transcript lookup finds nothing (and whenever no gene context or
override applies) the result falls back to the first transcript of the
precomputed consequence-severity order. -/
def c9ClaimedSelectedTranscript (ht : TranscriptRow) : Option Transcript :=
  let gene_transcripts : Option (List Transcript) :=
    match ht.comp_het_gene_ids with
    | some gids => some (ht.sorted_transcript_consequences.filter fun t => gids.contains t.gene_id)
    | none => ht.gene_transcripts
  let allowed_transcripts : Option (List (Option Transcript)) :=
    match ht.comp_het_gene_ids, ht.allowed_secondary_transcripts with
    | some _, some secondary =>
      match ht.allowed_transcripts with
      | some primary => some (if primary.any Option.isSome then primary else secondary)
      | none => some secondary
    | _, _ => ht.allowed_transcripts
  let main_transcript := ht.sorted_transcript_consequences.head?
  let matched_transcript : Option Transcript :=
    match gene_transcripts, allowed_transcripts with
    | some gts, some ats =>
      let allowed_transcript_ids := ats.filterMap fun t => t.map Transcript.transcript_id
      gts.find? fun t => allowed_transcript_ids.contains t.transcript_id
    | some gts, none => gts.head?
    | none, some ats => ats.head?.join
    | none, none => main_transcript
  match matched_transcript with
  | some t => some t
  | none => main_transcript

/-- Transcript selection as amended: identical to claim C9 except that a
failed preferred lookup falls back to the first *candidate* transcript
(the first of the gene-restricted list, which preserves the precomputed
order), and only when no candidate exists to the overall first
transcript. -/
def c9AmendedSelectedTranscript (ht : TranscriptRow) : Option Transcript :=
  let gene_transcripts : Option (List Transcript) :=
    match ht.comp_het_gene_ids with
    | some gids => some (ht.sorted_transcript_consequences.filter fun t => gids.contains t.gene_id)
    | none => ht.gene_transcripts
  let allowed_transcripts : Option (List (Option Transcript)) :=
    match ht.comp_het_gene_ids, ht.allowed_secondary_transcripts with
    | some _, some secondary =>
      match ht.allowed_transcripts with
      | some primary => some (if primary.any Option.isSome then primary else secondary)
      | none => some secondary
    | _, _ => ht.allowed_transcripts
  let main_transcript := ht.sorted_transcript_consequences.head?
  let matched_transcript : Option Transcript :=
    match gene_transcripts, allowed_transcripts with
    | some gts, some ats =>
      let allowed_transcript_ids := ats.filterMap fun t => t.map Transcript.transcript_id
      match gts.find? fun t => allowed_transcript_ids.contains t.transcript_id with
      | some t => some t
      | none => gts.head?
    | some gts, none => gts.head?
    | none, some ats => ats.head?.join
    | none, none => main_transcript
  match matched_transcript with
  | some t => some t
  | none => main_transcript

/-! ## Concrete instances used by the claim theorems -/

/-- Concrete sample for the C2 witness. -/
def c2Sample : Sample := ⟨"F1", "S1"⟩

/-- Concrete merged row for the C2 witness: family F1 has WES data only. -/
def c2Row : MergedRow :=
  { wes_family_entries := some [some [c2Sample]]
    wgs_family_entries := none
    wes_filters := some ∅
    wgs_filters := none
    wes_passes_quality := some [some [c2Sample]]
    wgs_passes_quality := none
    wes_passes_inheritance := some [some [c2Sample]]
    wgs_passes_inheritance := none }

/-- Family index map for the C2 witness: F1 is absent from the WGS
branch. -/
def c2Map : FamilyIndexMap := buildFamilyIndexMap [[c2Sample]] []

/-- Concrete WES sample for the C1 counterexample. -/
def c1s1 : Sample := ⟨"F1", "S1"⟩

/-- Concrete WGS sample for the C1 counterexample. -/
def c1s2 : Sample := ⟨"F1", "S2"⟩

/-- C1 counterexample row: family F1 is in both protocols; WES passes
quality but fails inheritance, WGS fails quality but passes
inheritance. -/
def c1Row : MergedRow :=
  { wes_family_entries := some [some [c1s1]]
    wgs_family_entries := some [some [c1s2]]
    wes_filters := some ∅
    wgs_filters := some ∅
    wes_passes_quality := some [some [c1s1]]
    wgs_passes_quality := some [none]
    wes_passes_inheritance := some [none]
    wgs_passes_inheritance := some [some [c1s2]] }

/-- Family index map for the C1 counterexample: F1 indexed in both
branches. -/
def c1Map : FamilyIndexMap := buildFamilyIndexMap [[c1s1]] [[c1s2]]

/-- Concrete WES-only family sample for the C3 witness. -/
def c3s1 : Sample := ⟨"F1", "S1"⟩

/-- Concrete WGS-only family sample for the C3 witness. -/
def c3s2 : Sample := ⟨"F2", "S2"⟩

/-- Concrete merged row for the C3 witness: F1 only in WES, F2 only in
WGS, both passing quality and inheritance in their own protocol. -/
def c3Row : MergedRow :=
  { wes_family_entries := some [some [c3s1]]
    wgs_family_entries := some [some [c3s2]]
    wes_filters := some ∅
    wgs_filters := some ∅
    wes_passes_quality := some [some [c3s1]]
    wgs_passes_quality := some [some [c3s2]]
    wes_passes_inheritance := some [some [c3s1]]
    wgs_passes_inheritance := some [some [c3s2]] }

/-- Family index map for the C3 witness. -/
def c3Map : FamilyIndexMap := buildFamilyIndexMap [[c3s1]] [[c3s2]]

/-- Concrete variant key for the C4 witness. -/
def c4key : VariantKey := ⟨"chrM", 100, ["A", "G"]⟩

/-- Concrete prefilter table for the C4 witness: contains `c4key`. -/
def c4t : RefTable := [(c4key, ⟨true, false⟩)]

/-- Concrete numeric quality predicate for the C4 witness: always fails. -/
def c4pq : Entries → Option Bool := fun _ => some false

/-- The high endpoint of the range a maximal run of requested configs
produces: the last config's `rangeHi`, or the already-recorded high `h`
when the run is empty. -/
def lastHi (enum_lookup : String → Nat) (lookupLen : Nat) (h : Nat) (cs : List RangeConfig) : Nat :=
  match cs.getLast? with
  | some c => rangeHi enum_lookup lookupLen c
  | none => h

/-- Requested terms for the C5 witness: everything except `uncertain`. -/
def c5terms : String → Bool := fun s => s != "uncertain"

/-- Enum-rank lookup for the C5 witness (spec §8 example ids). -/
def c5lookup : String → Nat := fun s =>
  if s = "Benign" then 1
  else if s = "Likely_pathogenic" then 3
  else if s = "Pathogenic" then 5
  else 0

/-- Range config for the benign classification (C5 witness). -/
def c5B : RangeConfig := ⟨"benign", "Benign", some "Benign"⟩

/-- Range config for the uncertain classification (C5 witness, not
requested). -/
def c5U : RangeConfig := ⟨"uncertain", "Uncertain", some "Uncertain"⟩

/-- Range config for the likely-pathogenic classification (C5 witness). -/
def c5L : RangeConfig := ⟨"likely_pathogenic", "Likely_pathogenic", some "Likely_pathogenic"⟩

/-- Range config for the pathogenic classification (C5 witness). -/
def c5P : RangeConfig := ⟨"pathogenic", "Pathogenic", some "Pathogenic"⟩

/-- Concrete reference table for the C6 witness. -/
def c6t : RefTable := [(⟨"chrM", 5, ["A", "C"]⟩, ⟨true, true⟩)]

/-- Concrete lookup row for the C8 witness: one project whose only family
stat is all-ref. -/
def c8Row : LookupRow :=
  { project_stats := [[some ⟨0, 0⟩]]
    project_sample_types := [("P1", "WES")]
    project_families := [(("P1", "WES"), ["F1"])] }

/-- Transcript in gene GA, first in precomputed order (C9
counterexample). -/
def c9t1 : Transcript := ⟨"T1", "GA"⟩

/-- Transcript in gene GB, the compound-het shared gene (C9
counterexample). -/
def c9t2 : Transcript := ⟨"T2", "GB"⟩

/-- Allowed transcript whose id matches no candidate (C9
counterexample). -/
def c9t3 : Transcript := ⟨"T3", "GB"⟩

/-- C9 counterexample row: a compound-het context restricting candidates
to gene GB, with an allowed-transcripts list that matches no candidate. -/
def c9Ht : TranscriptRow :=
  { sorted_transcript_consequences := [c9t1, c9t2]
    comp_het_gene_ids := some ["GB"]
    gene_transcripts := none
    allowed_transcripts := some [some c9t3]
    allowed_secondary_transcripts := none }

/-- Requested id for the C10 witness: same alleles as the row but a
different locus. -/
def c10vid : VariantId := ⟨"2", 7, "A", "G"⟩

/-- First of two requested ids for the C10 witness. -/
def c10vid2 : VariantId := ⟨"9", 1, "A", "G"⟩

/-- Second of two requested ids for the C10 witness. -/
def c10vid3 : VariantId := ⟨"9", 2, "A", "G"⟩

/-- Concrete row for the C10 witness. -/
def c10row : VariantRow := ⟨⟨"1", 5⟩, ["A", "G"]⟩

/-! ## Helper lemmas -/

theorem hailOr_some_some (a b : Bool) : hailOr (some a) (some b) = some (a || b) := by
  cases a <;> cases b <;> rfl

theorem hailAnd_some_some (a b : Bool) : hailAnd (some a) (some b) = some (a && b) := by
  cases a <;> cases b <;> rfl

theorem orMissing_some (b : Bool) (v : Option α) :
    orMissing (some b) v = if b = true then v else none := by
  cases b <;> rfl

theorem orMissing_eq_self_or_none (c : Option Bool) (v : Option α) :
    orMissing c v = v ∨ orMissing c v = none := by
  match c with
  | none => exact Or.inr rfl
  | some true => exact Or.inl rfl
  | some false => exact Or.inr rfl

theorem crossPasses_some (otherLookup : String → Option Nat) (arr : FamilyEntriesArray)
    (g : String) :
    crossPasses otherLookup arr (some g) =
      some (match otherLookup g with
            | some j => (hailGet arr j).isSome
            | none => false) := by
  unfold crossPasses
  cases h : otherLookup g <;> simp [h, hailIfElse]

theorem admitEntry_eq_eitherProtocolPasses (ownQ ownI otherQ otherI : FamilyEntriesArray)
    (otherLookup : String → Option Nat) (i : Nat) (e : Option Entries) (g : String)
    (hg : entryFamilyGuid e = some g) :
    admitEntry ownQ ownI otherQ otherI otherLookup i e =
      some (eitherProtocolPasses ownQ otherQ otherLookup i g &&
            eitherProtocolPasses ownI otherI otherLookup i g) := by
  unfold admitEntry
  rw [hg, crossPasses_some, crossPasses_some, hailOr_some_some, hailOr_some_some,
    hailAnd_some_some]
  rfl

theorem lt_length_of_get?_some {α : Type} {l : List α} {n : Nat} {a : α}
    (h : l.get? n = some a) : n < l.length := by
  by_contra hn
  rw [List.get?_eq_none.mpr (by omega)] at h
  exact absurd h (by simp)

theorem mem_enum_snd {α : Type} {l : List α} {x : Nat × α} (h : x ∈ l.enum) : x.2 ∈ l :=
  List.getElem?_mem (List.mem_enum_iff_getElem?.mp h)

theorem enum_map_get? {α β : Type} (l : List α) (f : Nat × α → β) (i : Nat) (e : α)
    (hel : l.get? i = some e) : (l.enum.map f).get? i = some (f (i, e)) := by
  rw [List.get?_map, List.get?_enum, hel]
  rfl

theorem applyFiltersSide_some_getD (lw : List (Option Entries))
    (ownQ ownI otherQ otherI : FamilyEntriesArray) (lookup : String → Option Nat) :
    (applyFiltersSide (some lw) ownQ ownI otherQ otherI lookup).getD [] =
      lw.enum.map fun x => orMissing (admitEntry ownQ ownI otherQ otherI lookup x.1 x.2) x.2 :=
  rfl

theorem buildIdxMapFrom_bound (fams : List (List Sample)) :
    ∀ (i : Nat) (g : String) (j : Nat), buildIdxMapFrom i fams g = some j → j < i + fams.length := by
  induction fams with
  | nil => intro i g j h; simp [buildIdxMapFrom] at h
  | cons samples rest ih =>
    intro i g j h
    unfold buildIdxMapFrom at h
    split at h
    next x j' hr =>
      cases h
      have := ih (i + 1) g _ hr
      simp only [List.length_cons]
      omega
    next hr =>
      split at h
      next x s hs =>
        split at h
        next hfg =>
          cases h
          simp only [List.length_cons]
          omega
        next hfg => exact absurd h (by simp)
      next x hs => exact absurd h (by simp)

/-! ## Claim C2 -/

/-- C2: in `_apply_filters`, for a family whose guid is absent from the
other protocol's branch of the family index map, the cross-protocol
lookup short-circuits to a definite `false` (no data is never treated as
a pass), the admission expression is total and reduces to the own
protocol's verdicts alone, and every index the family index map can
produce is within the bounds of the corresponding family entries
array. -/
theorem mito_c2_absent_family_short_circuit (row : MergedRow) (m : FamilyIndexMap)
    (i : Nat) (e : Option Entries) (g : String)
    (hg : entryFamilyGuid e = some g) (habs : m.wgs g = none) :
    crossPasses m.wgs row.wgs_passes_quality (entryFamilyGuid e) = some false ∧
    crossPasses m.wgs row.wgs_passes_inheritance (entryFamilyGuid e) = some false ∧
    admitEntry row.wes_passes_quality row.wes_passes_inheritance row.wgs_passes_quality
        row.wgs_passes_inheritance m.wgs i e =
      some ((hailGet row.wes_passes_quality i).isSome &&
            (hailGet row.wes_passes_inheritance i).isSome) ∧
    ∀ (fams : List (List Sample)) (g' : String) (j : Nat),
      buildIdxMap fams g' = some j → j < fams.length := by
  refine ⟨?_, ?_, ?_, ?_⟩
  · rw [hg, crossPasses_some, habs]
  · rw [hg, crossPasses_some, habs]
  · rw [admitEntry_eq_eitherProtocolPasses _ _ _ _ _ _ _ _ hg]
    simp [eitherProtocolPasses, habs]
  · intro fams g' j h
    have := buildIdxMapFrom_bound fams 0 g' j h
    omega

/-- Witness for C2 at a concrete input. -/
theorem mito_c2_absent_family_short_circuit_witness :
    crossPasses c2Map.wgs c2Row.wgs_passes_quality (entryFamilyGuid (some [c2Sample])) =
      some false ∧
    admitEntry c2Row.wes_passes_quality c2Row.wes_passes_inheritance c2Row.wgs_passes_quality
      c2Row.wgs_passes_inheritance c2Map.wgs 0 (some [c2Sample]) = some true := by
  have h := mito_c2_absent_family_short_circuit c2Row c2Map 0 (some [c2Sample]) "F1" rfl rfl
  exact ⟨h.1, h.2.2.1⟩

/-! ## Claim C1 -/

/-- C1 is false as stated: at this row WES has a full verdict (quality
passes, inheritance fails), so the claim's rule — pass both criteria in
one protocol, with cross-protocol fallback only when the own protocol
lacks a verdict — rejects the family's WES entries
(`c1ClaimedAdmit true false true true false true = false`), yet the code
keeps them, because its admission rule is an OR across protocols per
criterion. -/
theorem mito_c1_counterexample :
    ((applyFilters c1Row c1Map).family_entries.get? 0 = some (some [c1s1])) ∧
    (hailGet c1Row.wes_passes_quality 0).isSome = true ∧
    (hailGet c1Row.wes_passes_inheritance 0).isSome = false ∧
    (hailGet c1Row.wgs_passes_quality 0).isSome = false ∧
    (hailGet c1Row.wgs_passes_inheritance 0).isSome = true ∧
    (hailGet c1Row.wes_family_entries 0).isSome = true ∧
    c1ClaimedAdmit true false true true false true = false :=
  ⟨rfl, rfl, rfl, rfl, rfl, rfl, rfl⟩

/-- C1 as amended: a family's protocol-A entries are kept if and only if
each criterion separately — quality, inheritance — is passed by protocol
A, or by protocol B at the family's index in B's branch of the family
index map (a family absent from B's branch contributing `false`);
symmetric rule for protocol B's entries. -/
theorem mito_c1_amended (row : MergedRow) (m : FamilyIndexMap)
    (lw lg : List (Option Entries)) (i j : Nat) (e e' : Option Entries) (g g' : String)
    (hw : row.wes_family_entries = some lw) (hel : lw.get? i = some e)
    (hg : entryFamilyGuid e = some g)
    (hw' : row.wgs_family_entries = some lg) (hel' : lg.get? j = some e')
    (hg' : entryFamilyGuid e' = some g') :
    (applyFilters row m).family_entries.get? i =
      some (if (eitherProtocolPasses row.wes_passes_quality row.wgs_passes_quality m.wgs i g &&
                eitherProtocolPasses row.wes_passes_inheritance row.wgs_passes_inheritance m.wgs i g) = true
            then e else none) ∧
    (applyFilters row m).family_entries.get? (lw.length + j) =
      some (if (eitherProtocolPasses row.wgs_passes_quality row.wes_passes_quality m.wes j g' &&
                eitherProtocolPasses row.wgs_passes_inheritance row.wes_passes_inheritance m.wes j g') = true
            then e' else none) := by
  have hfe : (applyFilters row m).family_entries =
      ((applyFiltersSide row.wes_family_entries row.wes_passes_quality row.wes_passes_inheritance
        row.wgs_passes_quality row.wgs_passes_inheritance m.wgs).getD []) ++
      ((applyFiltersSide row.wgs_family_entries row.wgs_passes_quality row.wgs_passes_inheritance
        row.wes_passes_quality row.wes_passes_inheritance m.wes).getD []) := rfl
  rw [hfe, hw, hw', applyFiltersSide_some_getD, applyFiltersSide_some_getD]
  have hlen : (lw.enum.map fun x => orMissing (admitEntry row.wes_passes_quality
      row.wes_passes_inheritance row.wgs_passes_quality row.wgs_passes_inheritance m.wgs
      x.1 x.2) x.2).length = lw.length := by
    simp
  constructor
  · rw [List.get?_append (by rw [hlen]; exact lt_length_of_get?_some hel)]
    rw [enum_map_get? _ _ _ _ hel]
    rw [admitEntry_eq_eitherProtocolPasses _ _ _ _ _ _ _ _ hg, orMissing_some]
  · rw [List.get?_append_right (by rw [hlen]; omega)]
    rw [hlen]
    have hsub : lw.length + j - lw.length = j := by omega
    rw [hsub]
    rw [enum_map_get? _ _ _ _ hel']
    rw [admitEntry_eq_eitherProtocolPasses _ _ _ _ _ _ _ _ hg', orMissing_some]

/-- Witness for the amended C1 at the counterexample row: the WES entries
are kept because WES passes quality and WGS passes inheritance, and the
WGS entries are kept because WGS passes inheritance and WES passes
quality. -/
theorem mito_c1_amended_witness :
    (applyFilters c1Row c1Map).family_entries.get? 0 = some (some [c1s1]) ∧
    (applyFilters c1Row c1Map).family_entries.get? 1 = some (some [c1s2]) := by
  have h := mito_c1_amended c1Row c1Map [some [c1s1]] [some [c1s2]] 0 0
    (some [c1s1]) (some [c1s2]) "F1" "F1" rfl rfl rfl rfl rfl rfl
  exact ⟨h.1, h.2⟩

/-! ## Claim C3 -/

/-- C3: the two protocol tables are outer-joined on the variant key (a
variant in only one table still appears); the merged `family_entries` is
the admitted WES entries followed by the admitted WGS entries with a
missing side contributing the empty list, and `filters` is the set union
with a missing side contributing the empty set; and a family present in
exactly one protocol's table contributes exactly that protocol's
(admitted) entry, verbatim and without duplication on the other side. -/
theorem mito_c3_outer_join_merge (wesRow wgsRow : Option SideRow)
    (wesQ wesI wgsQ wgsI : FamilyEntriesArray)
    (row : MergedRow) (m : FamilyIndexMap)
    (lw lg : List (Option Entries)) (i : Nat) (e : Option Entries) (g : String) :
    ((outerJoinRow wesRow wgsRow wesQ wesI wgsQ wgsI).isSome ↔
      wesRow.isSome ∨ wgsRow.isSome) ∧
    ((applyFilters row m).family_entries =
      (applyFiltersSide row.wes_family_entries row.wes_passes_quality
        row.wes_passes_inheritance row.wgs_passes_quality row.wgs_passes_inheritance
        m.wgs).getD [] ++
      (applyFiltersSide row.wgs_family_entries row.wgs_passes_quality
        row.wgs_passes_inheritance row.wes_passes_quality row.wes_passes_inheritance
        m.wes).getD [] ∧
     (applyFilters row m).filters = row.wes_filters.getD ∅ ∪ row.wgs_filters.getD ∅) ∧
    (row.wgs_family_entries = none → row.wgs_filters = none →
      (applyFilters row m).family_entries =
        (applyFiltersSide row.wes_family_entries row.wes_passes_quality
          row.wes_passes_inheritance row.wgs_passes_quality row.wgs_passes_inheritance
          m.wgs).getD [] ∧
      (applyFilters row m).filters = row.wes_filters.getD ∅) ∧
    (row.wes_family_entries = none → row.wes_filters = none →
      (applyFilters row m).family_entries =
        (applyFiltersSide row.wgs_family_entries row.wgs_passes_quality
          row.wgs_passes_inheritance row.wes_passes_quality row.wes_passes_inheritance
          m.wes).getD [] ∧
      (applyFilters row m).filters = row.wgs_filters.getD ∅) ∧
    (row.wes_family_entries = some lw → lw.get? i = some e → entryFamilyGuid e = some g →
      m.wgs g = none → row.wgs_family_entries = some lg →
      (∀ e₂ ∈ lg, entryFamilyGuid e₂ ≠ some g) →
      (applyFilters row m).family_entries.get? i =
        some (if ((hailGet row.wes_passes_quality i).isSome &&
                  (hailGet row.wes_passes_inheritance i).isSome) = true then e else none) ∧
      ∀ e₂ ∈ (applyFilters row m).family_entries.drop lw.length,
        entryFamilyGuid e₂ ≠ some g) := by
  have hfe : (applyFilters row m).family_entries =
      ((applyFiltersSide row.wes_family_entries row.wes_passes_quality row.wes_passes_inheritance
        row.wgs_passes_quality row.wgs_passes_inheritance m.wgs).getD []) ++
      ((applyFiltersSide row.wgs_family_entries row.wgs_passes_quality row.wgs_passes_inheritance
        row.wes_passes_quality row.wes_passes_inheritance m.wes).getD []) := rfl
  refine ⟨?_, ⟨rfl, rfl⟩, ?_, ?_, ?_⟩
  · cases wesRow <;> cases wgsRow <;> simp [outerJoinRow]
  · intro h1 h2
    constructor
    · rw [hfe, h1]
      simp [applyFiltersSide]
    · show row.wes_filters.getD ∅ ∪ row.wgs_filters.getD ∅ = _
      rw [h2]
      simp
  · intro h1 h2
    constructor
    · rw [hfe, h1]
      simp [applyFiltersSide]
    · show row.wes_filters.getD ∅ ∪ row.wgs_filters.getD ∅ = _
      rw [h2]
      simp
  · intro hw hel hg habs hw' hnog
    constructor
    · rw [hfe, hw, hw', applyFiltersSide_some_getD, applyFiltersSide_some_getD]
      have hlen : (lw.enum.map fun x => orMissing (admitEntry row.wes_passes_quality
          row.wes_passes_inheritance row.wgs_passes_quality row.wgs_passes_inheritance m.wgs
          x.1 x.2) x.2).length = lw.length := by
        simp
      rw [List.get?_append (by rw [hlen]; exact lt_length_of_get?_some hel)]
      rw [enum_map_get? _ _ _ _ hel]
      rw [admitEntry_eq_eitherProtocolPasses _ _ _ _ _ _ _ _ hg, orMissing_some]
      simp [eitherProtocolPasses, habs]
    · have hdrop : (applyFilters row m).family_entries.drop lw.length =
          lg.enum.map fun x => orMissing (admitEntry row.wgs_passes_quality
            row.wgs_passes_inheritance row.wes_passes_quality row.wes_passes_inheritance m.wes
            x.1 x.2) x.2 := by
        rw [hfe, hw, hw', applyFiltersSide_some_getD, applyFiltersSide_some_getD]
        have hlen : (lw.enum.map fun x => orMissing (admitEntry row.wes_passes_quality
            row.wes_passes_inheritance row.wgs_passes_quality row.wgs_passes_inheritance m.wgs
            x.1 x.2) x.2).length = lw.length := by
          simp
        rw [← hlen, List.drop_left]
      rw [hdrop]
      intro e₂ hmem
      obtain ⟨x, hx, hfx⟩ := List.mem_map.mp hmem
      rcases orMissing_eq_self_or_none (admitEntry row.wgs_passes_quality
          row.wgs_passes_inheritance row.wes_passes_quality row.wes_passes_inheritance m.wes
          x.1 x.2) x.2 with hcase | hcase
      · rw [hcase] at hfx
        rw [← hfx]
        exact hnog x.2 (mem_enum_snd hx)
      · rw [hcase] at hfx
        rw [← hfx]
        simp [entryFamilyGuid]

/-- Witness for C3 at a concrete input: F1's WES entry survives verbatim
and the WGS half of the merged row contains no entry for F1. -/
theorem mito_c3_outer_join_merge_witness :
    (applyFilters c3Row c3Map).family_entries.get? 0 = some (some [c3s1]) ∧
    entryFamilyGuid (some [c3s2]) ≠ some "F1" := by
  have h := (mito_c3_outer_join_merge (some ⟨[], ∅⟩) none none none none none c3Row c3Map
    [some [c3s1]] [some [c3s2]] 0 (some [c3s1]) "F1").2.2.2.2 rfl rfl rfl rfl rfl
    (by decide)
  refine ⟨h.1, h.2 (some [c3s2]) ?_⟩
  decide

/-! ## Claim C4 -/

/-- C4: with a non-trivial numeric quality predicate and a loaded ClinVar
prefilter table, the returned per-family quality predicate is the pure
disjunction of key-membership in the prefilter table with the numeric
predicate: a key present in the table admits the family unconditionally,
a key absent leaves the numeric verdict unchanged.  A `None` numeric
predicate is returned unchanged (the prefilter is never consulted), and a
falsy prefilter returns the numeric predicate unchanged. -/
theorem mito_c4_clinvar_quality_override (pq : Entries → Option Bool)
    (load : Unit → CachedFilter) (t : RefTable) (key : VariantKey)
    (hload : load () = CachedFilter.table t) :
    getFamilyPassesQualityFilter (some pq) load key =
      some (fun entries => hailOr (some (tableContainsKey t key)) (pq entries)) ∧
    (tableContainsKey t key = true →
      ∀ entries, hailOr (some (tableContainsKey t key)) (pq entries) = some true) ∧
    (tableContainsKey t key = false →
      ∀ entries, hailOr (some (tableContainsKey t key)) (pq entries) = pq entries) ∧
    (∀ load₂, getFamilyPassesQualityFilter none load₂ key = none) ∧
    (getFamilyPassesQualityFilter (some pq) (fun _ => CachedFilter.noFilter) key = some pq) := by
  refine ⟨?_, ?_, ?_, fun load₂ => rfl, rfl⟩
  · show (match load () with
      | CachedFilter.noFilter => some pq
      | CachedFilter.table t =>
        some fun entries => hailOr (some (tableContainsKey t key)) (pq entries)) = _
    rw [hload]
  · intro h entries
    rw [h]
    match pq entries with
    | none => rfl
    | some true => rfl
    | some false => rfl
  · intro h entries
    rw [h]
    match pq entries with
    | none => rfl
    | some true => rfl
    | some false => rfl

/-- Witness for C4: the variant's key is in the prefilter table, so the
family passes quality although the numeric predicate fails on every
entry set. -/
theorem mito_c4_clinvar_quality_override_witness :
    getFamilyPassesQualityFilter (some c4pq) (fun _ => CachedFilter.table c4t) c4key =
      some (fun entries => hailOr (some (tableContainsKey c4t c4key)) (c4pq entries)) ∧
    hailOr (some (tableContainsKey c4t c4key)) (c4pq []) = some true ∧
    c4pq [] = some false := by
  have h := mito_c4_clinvar_quality_override c4pq (fun _ => CachedFilter.table c4t) c4t c4key rfl
  exact ⟨h.1, h.2.1 rfl [], rfl⟩

/-! ## Claim C5 -/

theorem lastHi_cons (enum_lookup : String → Nat) (lookupLen : Nat) (h : Nat)
    (c : RangeConfig) (cs : List RangeConfig) :
    lastHi enum_lookup lookupLen h (c :: cs) =
      lastHi enum_lookup lookupLen (rangeHi enum_lookup lookupLen c) cs := by
  cases cs with
  | nil => rfl
  | cons c₂ cs₂ =>
    simp only [lastHi, List.getLast?_cons_cons]
    cases hgl : (c₂ :: cs₂).getLast? with
    | none => exact absurd hgl (by simp)
    | some c₃ => rfl

theorem buildRangesGo_all_requested (terms : String → Bool) (enum_lookup : String → Nat)
    (lookupLen : Nat) :
    ∀ (cs rest : List RangeConfig) (lo h : Nat),
      (∀ c ∈ cs, terms c.path_filter = true) →
      buildRangesGo terms enum_lookup lookupLen (cs ++ rest) (some (lo, h)) =
        buildRangesGo terms enum_lookup lookupLen rest
          (some (lo, lastHi enum_lookup lookupLen h cs)) := by
  intro cs
  induction cs with
  | nil => intro rest lo h _; rfl
  | cons c cs ih =>
    intro rest lo h hall
    have hc : terms c.path_filter = true := hall c (by simp)
    rw [List.cons_append]
    rw [show buildRangesGo terms enum_lookup lookupLen (c :: (cs ++ rest)) (some (lo, h)) =
        buildRangesGo terms enum_lookup lookupLen (cs ++ rest)
          (some (lo, rangeHi enum_lookup lookupLen c)) from by
      simp [buildRangesGo, hc]]
    rw [ih rest lo _ fun c' hc' => hall c' (by simp [hc'])]
    rw [lastHi_cons]

theorem buildRangesGo_none_all_requested (terms : String → Bool) (enum_lookup : String → Nat)
    (lookupLen : Nat) (c : RangeConfig) (cs rest : List RangeConfig)
    (hc : terms c.path_filter = true)
    (hall : ∀ c' ∈ cs, terms c'.path_filter = true) :
    buildRangesGo terms enum_lookup lookupLen ((c :: cs) ++ rest) none =
      buildRangesGo terms enum_lookup lookupLen rest
        (some (enum_lookup c.start,
          lastHi enum_lookup lookupLen (rangeHi enum_lookup lookupLen c) cs)) := by
  rw [List.cons_append]
  rw [show buildRangesGo terms enum_lookup lookupLen (c :: (cs ++ rest)) none =
      buildRangesGo terms enum_lookup lookupLen (cs ++ rest)
        (some (enum_lookup c.start, rangeHi enum_lookup lookupLen c)) from by
    simp [buildRangesGo, hc]]
  exact buildRangesGo_all_requested terms enum_lookup lookupLen cs rest _ _ hall

/-- C5: a nonempty run of consecutively requested severity filters
produces one merged inclusive range, from the first config's start id to
the last config's high endpoint; a non-requested filter between two
requested runs closes the first range and starts a second, disjoint one;
and the resulting predicate holds exactly when the variant's
pathogenicity enum id lies inside one of the built ranges, both endpoints
inclusive. -/
theorem mito_c5_path_ranges (terms : String → Bool) (enum_lookup : String → Nat)
    (lookupLen : Nat) (c₁ d c₂ : RangeConfig) (cs₁ cs₂ : List RangeConfig)
    (h₁ : ∀ c ∈ c₁ :: cs₁, terms c.path_filter = true)
    (hd : terms d.path_filter = false)
    (h₂ : ∀ c ∈ c₂ :: cs₂, terms c.path_filter = true) :
    buildRanges (c₁ :: cs₁) terms enum_lookup lookupLen =
      [(enum_lookup c₁.start,
        lastHi enum_lookup lookupLen (rangeHi enum_lookup lookupLen c₁) cs₁)] ∧
    buildRanges (c₁ :: cs₁ ++ d :: c₂ :: cs₂) terms enum_lookup lookupLen =
      [(enum_lookup c₁.start,
        lastHi enum_lookup lookupLen (rangeHi enum_lookup lookupLen c₁) cs₁),
       (enum_lookup c₂.start,
        lastHi enum_lookup lookupLen (rangeHi enum_lookup lookupLen c₂) cs₂)] ∧
    ∀ (configs : List RangeConfig) (v : Nat),
      hasPathExpr configs terms enum_lookup lookupLen v = true ↔
        ∃ r ∈ buildRanges configs terms enum_lookup lookupLen, r.1 ≤ v ∧ v ≤ r.2 := by
  have hc₁ : terms c₁.path_filter = true := h₁ c₁ (by simp)
  have hcs₁ : ∀ c ∈ cs₁, terms c.path_filter = true := fun c hc => h₁ c (by simp [hc])
  have hc₂ : terms c₂.path_filter = true := h₂ c₂ (by simp)
  have hcs₂ : ∀ c ∈ cs₂, terms c.path_filter = true := fun c hc => h₂ c (by simp [hc])
  refine ⟨?_, ?_, ?_⟩
  · have e1 : buildRanges (c₁ :: cs₁) terms enum_lookup lookupLen =
        buildRangesGo terms enum_lookup lookupLen ((c₁ :: cs₁) ++ []) none := by
      rw [List.append_nil]
      rfl
    rw [e1, buildRangesGo_none_all_requested terms enum_lookup lookupLen c₁ cs₁ [] hc₁ hcs₁]
    rfl
  · show buildRangesGo terms enum_lookup lookupLen ((c₁ :: cs₁) ++ (d :: c₂ :: cs₂)) none = _
    rw [buildRangesGo_none_all_requested terms enum_lookup lookupLen c₁ cs₁ _ hc₁ hcs₁]
    rw [show buildRangesGo terms enum_lookup lookupLen (d :: c₂ :: cs₂)
        (some (enum_lookup c₁.start,
          lastHi enum_lookup lookupLen (rangeHi enum_lookup lookupLen c₁) cs₁)) =
        (enum_lookup c₁.start,
          lastHi enum_lookup lookupLen (rangeHi enum_lookup lookupLen c₁) cs₁) ::
        buildRangesGo terms enum_lookup lookupLen (c₂ :: cs₂) none from by
      simp [buildRangesGo, hd]]
    have e2 : buildRangesGo terms enum_lookup lookupLen (c₂ :: cs₂) none =
        buildRangesGo terms enum_lookup lookupLen ((c₂ :: cs₂) ++ []) none := by
      rw [List.append_nil]
    rw [e2, buildRangesGo_none_all_requested terms enum_lookup lookupLen c₂ cs₂ [] hc₂ hcs₂]
    rfl
  · intro configs v
    simp [hasPathExpr, List.any_eq_true, Bool.and_eq_true, decide_eq_true_eq]

/-- Witness for C5, matching the spec's example: likely-pathogenic (id 3)
and pathogenic (id 5) requested together as adjacent configs merge into
the single range `[3, 5]`, while benign (id 1) requested across a
non-requested gap yields the separate range `[1, 1]`; id 4 is matched, id
2 is not. -/
theorem mito_c5_path_ranges_witness :
    buildRanges [c5B, c5U, c5L, c5P] c5terms c5lookup 7 = [(1, 1), (3, 5)] ∧
    hasPathExpr [c5B, c5U, c5L, c5P] c5terms c5lookup 7 4 = true ∧
    hasPathExpr [c5B, c5U, c5L, c5P] c5terms c5lookup 7 2 = false := by
  have h := mito_c5_path_ranges c5terms c5lookup 7 c5B c5U c5L [] [c5P]
    (by decide) (by decide) (by decide)
  exact ⟨h.2.1, by decide, by decide⟩

/-! ## Claim C6 -/

theorem cacheLookup_cons_self (key : String) (v : CachedFilter) (cache : FilterCache) :
    cacheLookup ((key, v) :: cache) key = some v := by
  simp [cacheLookup, List.find?]

/-- C6: a cache hit returns the cached value without evaluating the
filter loader or reading the table and leaves the cache unchanged; a
cache miss stores `False` when no relevant terms were requested, the full
table for the `True` sentinel, and the filtered table for a predicate; a
second call with the same key returns the first call's stored value with
no loader evaluation and no table read; and `_get_clinvar_prefilter`
yields the `True` sentinel exactly when both the pathogenic and the
likely-pathogenic filters were requested, and `False` exactly when no
relevant filter was requested. -/
theorem mito_c6_filter_ht_cache (cache : FilterCache) (key : String) (t : RefTable)
    (gf : HtFilter) (v : CachedFilter) :
    (cacheLookup cache key = some v →
      getLoadedFilterHt cache key t gf = (v, cache, false, false)) ∧
    (cacheLookup cache key = none →
      (gf = HtFilter.ffalse →
        getLoadedFilterHt cache key t gf =
          (CachedFilter.noFilter, (key, CachedFilter.noFilter) :: cache, true, false)) ∧
      (gf = HtFilter.ftrue →
        getLoadedFilterHt cache key t gf =
          (CachedFilter.table t, (key, CachedFilter.table t) :: cache, true, true)) ∧
      (∀ p, gf = HtFilter.fpred p →
        getLoadedFilterHt cache key t gf =
          (CachedFilter.table (t.filter fun kv => p kv.2),
            (key, CachedFilter.table (t.filter fun kv => p kv.2)) :: cache, true, true))) ∧
    (∀ (gf₂ : HtFilter) (t₂ : RefTable),
      getLoadedFilterHt (getLoadedFilterHt cache key t gf).2.1 key t₂ gf₂ =
        ((getLoadedFilterHt cache key t gf).1,
          (getLoadedFilterHt cache key t gf).2.1, false, false)) ∧
    (∀ fs : List String, getClinvarPrefilter fs = HtFilter.ftrue ↔
      fs.contains CLINVAR_LIKELY_PATH_FILTER = true ∧ fs.contains CLINVAR_PATH_FILTER = true) ∧
    (∀ fs : List String, getClinvarPrefilter fs = HtFilter.ffalse ↔ fs.isEmpty = true) := by
  refine ⟨?_, ?_, ?_, ?_, ?_⟩
  · intro h
    simp [getLoadedFilterHt, h]
  · intro h
    refine ⟨?_, ?_, ?_⟩
    · intro hgf
      simp [getLoadedFilterHt, h, hgf]
    · intro hgf
      simp [getLoadedFilterHt, h, hgf]
    · intro p hgf
      simp [getLoadedFilterHt, h, hgf]
  · intro gf₂ t₂
    cases hlk : cacheLookup cache key with
    | some w =>
      simp [getLoadedFilterHt, hlk]
    | none =>
      cases gf with
      | ffalse => simp [getLoadedFilterHt, hlk, cacheLookup_cons_self]
      | ftrue => simp [getLoadedFilterHt, hlk, cacheLookup_cons_self]
      | fpred p => simp [getLoadedFilterHt, hlk, cacheLookup_cons_self]
  · intro fs
    unfold getClinvarPrefilter
    split_ifs with h1 h2 h3 <;> simp_all [List.isEmpty_iff]
  · intro fs
    unfold getClinvarPrefilter
    split_ifs with h1 h2 h3 <;> simp_all [List.isEmpty_iff]

/-- Witness for C6: the first call with the `True` sentinel stores the
full table and reads it; the second call with the same key returns the
stored table without evaluating the loader or reading the table; both
path filters requested yield the `True` sentinel. -/
theorem mito_c6_filter_ht_cache_witness :
    getLoadedFilterHt [] "clinvar" c6t HtFilter.ftrue =
      (CachedFilter.table c6t, [("clinvar", CachedFilter.table c6t)], true, true) ∧
    getLoadedFilterHt [("clinvar", CachedFilter.table c6t)] "clinvar" c6t HtFilter.ftrue =
      (CachedFilter.table c6t, [("clinvar", CachedFilter.table c6t)], false, false) ∧
    getClinvarPrefilter [CLINVAR_PATH_FILTER, CLINVAR_LIKELY_PATH_FILTER] = HtFilter.ftrue := by
  have h := mito_c6_filter_ht_cache [] "clinvar" c6t HtFilter.ftrue CachedFilter.noFilter
  refine ⟨(h.2.1 rfl).2.1 rfl, ?_, ?_⟩
  · exact h.2.2.1 HtFilter.ftrue c6t
  · exact (h.2.2.2.1 [CLINVAR_PATH_FILTER, CLINVAR_LIKELY_PATH_FILTER]).mpr (by decide)

/-! ## Claim C7 -/

/-- C7 counterexample: with exactly `MAX_LOAD_INTERVALS` parsed intervals
(modelled here with the bound instantiated to 2), the claim says the
intervals are attached to the load arguments and no post-load interval
filter runs; the code attaches nothing (`len < MAX_LOAD_INTERVALS` is
strict) and applies the post-load filter (`len >= MAX_LOAD_INTERVALS`). -/
theorem mito_c7_counterexample :
    parseIntervalsLoadKwargs [1, 2] false 2 = (none : Option (List Nat)) ∧
    [1, 2].length ≤ 2 ∧
    prefilterEntriesTable [1, 2, 3] [1, 2] false 2 (fun iv r => iv == r) = [1, 2] := by
  refine ⟨rfl, by decide, by decide⟩

/-- C7 as amended: the intervals are attached to the table-load arguments
exactly when the parsed list is nonempty, not excluded, and has strictly
fewer than `MAX_LOAD_INTERVALS` intervals; for `MAX_LOAD_INTERVALS` or
more intervals the table is post-load filtered to the intervals; excluded
intervals are always applied as a post-load `keep=False` filter; and
below the bound no post-load interval filter runs. -/
theorem mito_c7_amended {I R : Type} (rows : List R) (parsed : List I) (exclude : Bool)
    (maxLoad : Nat) (member : I → R → Bool) :
    (parseIntervalsLoadKwargs parsed exclude maxLoad = some parsed ↔
      ¬ parsed.isEmpty ∧ exclude = false ∧ parsed.length < maxLoad) ∧
    (exclude = false → maxLoad ≤ parsed.length →
      prefilterEntriesTable rows parsed exclude maxLoad member =
        filterIntervals rows parsed member true) ∧
    (exclude = true → ¬ parsed.isEmpty →
      prefilterEntriesTable rows parsed exclude maxLoad member =
        filterIntervals rows parsed member false) ∧
    (exclude = false → parsed.length < maxLoad →
      prefilterEntriesTable rows parsed exclude maxLoad member = rows) := by
  refine ⟨?_, ?_, ?_, ?_⟩
  · unfold parseIntervalsLoadKwargs
    split_ifs with h
    · simp [h]
    · simp [h]
      intro hne hex
      rcases Nat.lt_or_ge parsed.length maxLoad with hlt | hge
      · exact absurd ⟨by simp [hne], hex, hlt⟩ h
      · exact hge
  · intro h1 h2
    simp [prefilterEntriesTable, h1, h2]
  · intro h1 h2
    simp [prefilterEntriesTable, h1, h2]
  · intro h1 h2
    simp [prefilterEntriesTable, h1, Nat.not_le.mpr h2]

/-- Witness for the amended C7: one interval (below the bound 2) is
attached at load time; two intervals (at the bound) trigger the post-load
filter. -/
theorem mito_c7_amended_witness :
    parseIntervalsLoadKwargs [1] false 2 = some [1] ∧
    prefilterEntriesTable [1, 2, 3] [1, 2] false 2 (fun iv r => iv == r) = [1, 2] := by
  refine ⟨(mito_c7_amended ([] : List Nat) [1] false 2 (fun iv r => iv == r)).1.mpr
    (by decide), ?_⟩
  exact (mito_c7_amended [1, 2, 3] [1, 2] false 2 (fun iv r => iv == r)).2.1 rfl (by decide)

/-! ## Claim C8 -/

/-- C8: a missing `lookup.ht` auxiliary table raises the not-found
condition, a variant whose lookup row has only ref-call stats raises the
not-found condition, and the ONT data type's variant lookup raises the
bad-request condition, which is distinct from not-found. -/
theorem mito_c8_lookup_error_conditions (r : LookupRow)
    (hall : ∀ ps ∈ r.project_stats, ∀ os ∈ ps, (os.map statHasNonRef).getD false = false) :
    mitoAddProjectLookupData none = Except.error HttpFailure.notFound ∧
    mitoAddProjectLookupData (some r) = Except.error HttpFailure.notFound ∧
    ontAddProjectLookupData =
      Except.error (HttpFailure.badRequest "Variant lookup is not supported for ONT data") ∧
    ∀ reason, HttpFailure.badRequest reason ≠ HttpFailure.notFound := by
  refine ⟨rfl, ?_, rfl, ?_⟩
  · have hnr : ∀ ps ∈ r.project_stats, nonRefFamilyIndices ps = [] := by
      intro ps hps
      unfold nonRefFamilyIndices
      rw [List.filterMap_eq_nil]
      intro x hx
      cases hos : x.2 with
      | none => rfl
      | some st =>
        have h := hall ps hps x.2 (mem_enum_snd hx)
        rw [hos] at h
        simp only [Option.map_some', Option.getD_some] at h
        simp [hos, h]
    have hpairs : ((r.project_stats.enum.map fun x =>
        (r.project_sample_types.getD x.1 ("", ""), nonRefFamilyIndices x.2)).filter
          fun x => ¬ x.2.isEmpty) = [] := by
      rw [List.filter_eq_nil]
      intro a ha
      obtain ⟨x, hx, rfl⟩ := List.mem_map.mp ha
      simp [hnr x.2 (mem_enum_snd hx)]
    have hvp : variantProjects r = [] := by
      show groupProjectsByGuid ((((r.project_stats.enum.map fun x =>
          (r.project_sample_types.getD x.1 ("", ""), nonRefFamilyIndices x.2)).filter
            fun x => ¬ x.2.isEmpty).map fun x =>
          (x.1, x.2.map fun j =>
            (((r.project_families.find? fun pf => pf.1 = x.1).map fun pf =>
              pf.2).getD []).getD j ""))) = []
      rw [hpairs]
      rfl
    show (if (variantProjects r).isEmpty = true then Except.error HttpFailure.notFound
          else Except.ok (variantProjects r)) = Except.error HttpFailure.notFound
    rw [hvp]
    rfl
  · intro reason h
    exact HttpFailure.noConfusion h

/-- Witness for C8: the all-ref lookup row yields not-found, ONT yields
bad-request. -/
theorem mito_c8_lookup_error_conditions_witness :
    mitoAddProjectLookupData (some c8Row) = Except.error HttpFailure.notFound ∧
    ontAddProjectLookupData =
      Except.error (HttpFailure.badRequest "Variant lookup is not supported for ONT data") := by
  have h := mito_c8_lookup_error_conditions c8Row (by decide)
  exact ⟨h.2.1, h.2.2.1⟩

/-! ## Claim C9 -/

/-- C9 is false as stated: when the preferred allowed-transcript lookup
finds nothing, the code falls back to the first transcript of the
gene-restricted candidate list (here `T2`), not to the first transcript
of the precomputed consequence-severity order (here `T1`) as the claim's
fallback clause says. -/
theorem mito_c9_counterexample :
    selectedMainTranscriptExpr c9Ht = some c9t2 ∧
    c9ClaimedSelectedTranscript c9Ht = some c9t1 ∧
    c9t2 ≠ c9t1 := by
  refine ⟨rfl, rfl, by decide⟩

/-- C9 as amended: the selection is exactly as the claim describes —
compound-het pairs restrict candidates to the shared genes, otherwise
gene-of-interest transcripts are used; within the candidates a transcript
from the allowed list is preferred, falling back to the secondary allowed
list only when the primary has no defined entries — except that a failed
preferred lookup falls back to the first *candidate* transcript, and only
when no candidate exists (or no gene context applies) to the first
transcript of the precomputed order. -/
theorem mito_c9_amended :
    ∀ ht : TranscriptRow, selectedMainTranscriptExpr ht = c9AmendedSelectedTranscript ht :=
  fun _ => rfl

/-! ## Claim C10 -/

/-- C10: with exactly one requested variant id a row is kept if and only
if its allele pair matches — the locus is never consulted — while with
two or more requested ids a kept row must match both the locus and the
allele pair of some requested id. -/
theorem mito_c10_variant_id_filter :
    (∀ (rows : List VariantRow) (vid : VariantId) (r : VariantRow),
      r ∈ filterVariantIds rows [vid] ↔ r ∈ rows ∧ r.alleles = [vid.ref, vid.alt]) ∧
    (∀ (rows : List VariantRow) (vid : VariantId) (r : VariantRow),
      r ∈ rows → r.alleles = [vid.ref, vid.alt] →
      r.locus ≠ ⟨vid.chrom, vid.pos⟩ → r ∈ filterVariantIds rows [vid]) ∧
    (∀ (rows : List VariantRow) (ids : List VariantId) (r : VariantRow), 2 ≤ ids.length →
      (r ∈ filterVariantIds rows ids ↔ r ∈ rows ∧ ∃ vid ∈ ids,
        r.locus = ⟨vid.chrom, vid.pos⟩ ∧ r.alleles = [vid.ref, vid.alt])) := by
  have h1 : ∀ (rows : List VariantRow) (vid : VariantId) (r : VariantRow),
      r ∈ filterVariantIds rows [vid] ↔ r ∈ rows ∧ r.alleles = [vid.ref, vid.alt] := by
    intro rows vid r
    simp [filterVariantIds, List.mem_filter]
  refine ⟨h1, ?_, ?_⟩
  · intro rows vid r hr hall _
    exact (h1 rows vid r).mpr ⟨hr, hall⟩
  · intro rows ids r hlen
    match ids with
    | [] => simp at hlen
    | [vid] => simp at hlen
    | vid₁ :: vid₂ :: rest =>
      simp [filterVariantIds, List.mem_filter, List.any_eq_true]

/-- Witness for C10: the row is kept by a single-id filter although its
locus differs from the requested id's, and the two-id filter demands a
locus match. -/
theorem mito_c10_variant_id_filter_witness :
    c10row ∈ filterVariantIds [c10row] [c10vid] ∧
    (c10row ∈ filterVariantIds [c10row] [c10vid2, c10vid3] ↔
      c10row ∈ [c10row] ∧ ∃ vid ∈ [c10vid2, c10vid3],
        c10row.locus = ⟨vid.chrom, vid.pos⟩ ∧ c10row.alleles = [vid.ref, vid.alt]) := by
  refine ⟨mito_c10_variant_id_filter.2.1 [c10row] c10vid c10row (by decide) rfl (by decide),
    mito_c10_variant_id_filter.2.2 [c10row] [c10vid2, c10vid3] c10row (by decide)⟩
